import Mathlib

/-!
Shallow embedding of `openrecall/database.py`: the SQLite persistence layer of
openrecall-renewed.  Floating-point values are represented by their 32-bit
IEEE-754 bit patterns (naturals below `2 ^ 32`); `numpy.astype(float32)` is an
abstract coercion from the caller's element type to such a pattern, modelled as
a function that may fail (a failing coercion models a `ValueError`/`TypeError`
raised by numpy).  SQLite errors are modelled by a `fault` flag (injected store
error) together with the structurally realizable error conditions (missing
table, missing column, uniqueness violation); a caught `sqlite3.Error` makes an
operation return its neutral result, an uncaught Python exception is an
`Except.error`.
-/

namespace OpenRecall

/-! ### Vector codec

`insert_entry` encodes with `embedding.astype(np.float32).tobytes()`;
`get_all_entries` decodes with `np.frombuffer(blob, dtype=np.float32)`.
-/

/-- The four little-endian bytes of one 32-bit float pattern, as laid out by
`numpy.tobytes` for a single `float32` element. -/
def f32ToBytes (x : Nat) : List Nat :=
  [x % 256, x / 256 % 256, x / 65536 % 256, x / 16777216 % 256]

/-- `ndarray.tobytes()` on a float32 vector: tight concatenation of the 4-byte
patterns, no header, no padding. -/
def tobytes (patterns : List Nat) : List Nat :=
  (patterns.map f32ToBytes).flatten

/-- `np.frombuffer(blob, dtype=np.float32)`: reads the byte list four bytes at
a time; a byte count that is not a multiple of four raises `ValueError`
(modelled by `none`). -/
def frombuffer : List Nat → Option (List Nat)
  | [] => some []
  | b0 :: b1 :: b2 :: b3 :: rest =>
      (frombuffer rest).map
        (fun v => (b0 + 256 * b1 + 65536 * b2 + 16777216 * b3) :: v)
  | _ => none

/-- `astype(np.float32)` applied elementwise: coerces each element of the
caller's vector to a 32-bit pattern; fails (raises) as soon as one element
cannot be coerced. -/
def coerceVec {F : Type} (c : F → Option Nat) : List F → Option (List Nat)
  | [] => some []
  | x :: xs =>
      match c x, coerceVec c xs with
      | some y, some ys => some (y :: ys)
      | _, _ => none

/-- The whole encoding step of `insert_entry` (line 178 of `database.py`):
`embedding.astype(np.float32).tobytes()`. -/
def encodeEmbedding {F : Type} (c : F → Option Nat) (v : List F) :
    Option (List Nat) :=
  (coerceVec c v).map tobytes

/-! ### Data model -/

/-- Shape of the `entries` table: whether `timestamp` carries the legacy
`UNIQUE` constraint (the stored definition contains
`"timestamp INTEGER UNIQUE"`), and whether the `filename` column exists. -/
structure Schema where
  timestampUnique : Bool
  hasFilename : Bool
deriving DecidableEq, Repr

/-- One stored row of the `entries` table.  `embedding` is the raw blob (byte
list); `filename` is nullable.  In a table whose schema lacks the `filename`
column the `filename` field is vacuous and held at `none`. -/
structure Row where
  id : Nat
  app : String
  title : String
  text : String
  timestamp : Int
  embedding : List Nat
  filename : Option String
deriving DecidableEq, Repr

/-- The `entries` table: its shape, whether `idx_timestamp` exists, its rows,
and the next AUTOINCREMENT id. -/
structure Table where
  schema : Schema
  hasIndex : Bool
  rows : List Row
  nextId : Nat
deriving DecidableEq, Repr

/-- The database file: either no `entries` table yet, or one table. -/
structure DBState where
  table : Option Table
deriving DecidableEq, Repr

/-- The shape created by `create_db`: no uniqueness on `timestamp`, `filename`
present. -/
def currentSchema : Schema := ⟨false, true⟩

/-- The `Entry` namedtuple returned by `get_all_entries`: `embedding` is the
decoded float32 vector (list of 32-bit patterns). -/
structure Entry where
  id : Nat
  app : String
  title : String
  text : String
  timestamp : Int
  embedding : List Nat
  filename : Option String
deriving DecidableEq, Repr

/-! ### Schema manager: `create_db` -/

/-- Largest id present, used for the AUTOINCREMENT sequence of the table
recreated by the migration. -/
def maxId (rows : List Row) : Nat :=
  rows.foldr (fun r m => max r.id m) 0

/-- The migration copy (`INSERT INTO entries (cols) SELECT cols FROM
entries_old`) restricted to the common columns: every field is copied
verbatim; `filename` is copied only when the old table had the column,
otherwise the new row holds NULL there. -/
def migrateRow (hasF : Bool) (r : Row) : Row :=
  if hasF then r else { r with filename := none }

/-- `create_db` (lines 13-102 of `database.py`): detect the legacy
`timestamp INTEGER UNIQUE` shape from the stored table definition and migrate
(rename, recreate without the constraint, copy common columns, drop);
otherwise `CREATE TABLE IF NOT EXISTS` with the current shape.  Either way,
`CREATE INDEX IF NOT EXISTS idx_timestamp` and the defensive
`ALTER TABLE entries ADD COLUMN filename` backfill run afterwards. -/
def create_db (s : DBState) : DBState :=
  match s.table with
  | none =>
      ⟨some ⟨currentSchema, true, [], 1⟩⟩
  | some t =>
      if t.schema.timestampUnique then
        let newRows := t.rows.map (migrateRow t.schema.hasFilename)
        ⟨some ⟨currentSchema, true, newRows, maxId newRows + 1⟩⟩
      else
        ⟨some ⟨⟨false, true⟩, true, t.rows, t.nextId⟩⟩

/-! ### Record store -/

/-- The guarded store interaction of `insert_entry` (the `try` block, lines
180-197): on any `sqlite3.Error` — an injected fault, a missing table, a
missing `filename` column (the INSERT names it), or an `IntegrityError` from
the legacy uniqueness constraint — the error is caught and `(s, none)` comes
back with the state unchanged (the transaction is rolled back, previously
committed rows untouched). -/
def storeInsert (fault : Bool) (s : DBState) (text : String) (ts : Int)
    (bytes : List Nat) (app title : String) (filename : Option String) :
    DBState × Option Nat :=
  if fault then (s, none)
  else
    match s.table with
    | none => (s, none)
    | some t =>
        if t.schema.hasFilename = false then (s, none)
        else if t.schema.timestampUnique = true ∧
            ∃ r ∈ t.rows, r.timestamp = ts then (s, none)
        else
          (⟨some { t with
                    rows := t.rows ++ [⟨t.nextId, app, title, text, ts, bytes, filename⟩],
                    nextId := t.nextId + 1 }⟩,
           some t.nextId)

/-- `insert_entry` (lines 160-198): the encoding step
`embedding.astype(np.float32).tobytes()` runs BEFORE the `try` block, so a
coercion failure propagates to the caller (`Except.error`); only the store
interaction is guarded. -/
def insert_entry {F : Type} (c : F → Option Nat) (fault : Bool) (s : DBState)
    (text : String) (ts : Int) (embedding : List F)
    (app title : String) (filename : Option String) :
    Except Unit (DBState × Option Nat) :=
  match encodeEmbedding c embedding with
  | none => .error ()
  | some bytes => .ok (storeInsert fault s text ts bytes app title filename)

/-- Rows ordered as by `ORDER BY timestamp DESC`: insert one row into a
descending-sorted list. -/
def insertDesc (r : Row) : List Row → List Row
  | [] => [r]
  | x :: xs => if r.timestamp ≤ x.timestamp then x :: insertDesc r xs
               else r :: x :: xs

/-- Sort the rows by timestamp, descending (`ORDER BY timestamp DESC`; ties in
store-native order, which callers must treat as unspecified). -/
def sortRowsDesc : List Row → List Row
  | [] => []
  | r :: rs => insertDesc r (sortRowsDesc rs)

/-- Turn one fetched row into an `Entry`:
`np.frombuffer(row["embedding"], dtype=np.float32)` raises on a blob whose
byte count is not a multiple of four (`Except.error`, not caught by the
`except sqlite3.Error` clause). -/
def rowToEntry (r : Row) : Except Unit Entry :=
  match frombuffer r.embedding with
  | some vec => .ok ⟨r.id, r.app, r.title, r.text, r.timestamp, vec, r.filename⟩
  | none => .error ()

/-- The decode loop of `get_all_entries`: decodes rows in order; the first
decode failure aborts the whole call with an uncaught exception. -/
def decodeRows : List Row → Except Unit (List Entry)
  | [] => .ok []
  | r :: rs =>
      match rowToEntry r, decodeRows rs with
      | .ok e, .ok es => .ok (e :: es)
      | _, _ => .error ()

/-- `get_all_entries` (lines 105-136): `SELECT id, app, title, text,
timestamp, embedding, filename FROM entries ORDER BY timestamp DESC`.  A
`sqlite3.Error` — injected fault, no `entries` table, or the SELECT naming a
`filename` column the table does not have — is caught and the accumulated
(empty) list is returned.  A `frombuffer` failure propagates. -/
def get_all_entries (fault : Bool) (s : DBState) : Except Unit (List Entry) :=
  match s.table with
  | none => .ok []
  | some t =>
      if fault then .ok []
      else if t.schema.hasFilename = false then .ok []
      else decodeRows (sortRowsDesc t.rows)

/-- `get_timestamps` (lines 139-157): `SELECT timestamp FROM entries ORDER BY
timestamp DESC`; a `sqlite3.Error` is caught and `[]` returned. -/
def get_timestamps (fault : Bool) (s : DBState) : List Int :=
  match s.table with
  | none => []
  | some t =>
      if fault then []
      else (sortRowsDesc t.rows).map Row.timestamp

/-! ### Concrete fixtures used to instantiate the theorems -/

/-- A fresh store after `create_db`: the current shape, no rows. -/
def freshState : DBState := create_db ⟨none⟩

/-- Insert one entry with a fixed payload and the given timestamp, keeping the
resulting state (the coercion is the identity on float32 patterns). -/
def insertSimple (s : DBState) (ts : Int) : DBState :=
  match insert_entry (fun x : Nat => some x) false s "txt" ts [0]
      "app" "ttl" none with
  | .ok (s2, _) => s2
  | .error _ => s

/-- The spec scenario: entries inserted with timestamps 100, 300, 200. -/
def scenarioState : DBState :=
  insertSimple (insertSimple (insertSimple freshState 100) 300) 200

/-- A demo row of the current shape. -/
def demoRow (i : Nat) (ts : Int) : Row :=
  ⟨i, "app", "ttl", "txt", ts, tobytes [0], none⟩

/-- A current-shape table holding three rows with timestamps 100, 300, 200. -/
def demoTable : Table :=
  ⟨⟨false, true⟩, true, [demoRow 1 100, demoRow 2 300, demoRow 3 200], 4⟩

/-- A legacy table (unique timestamp, `filename` column present) with two rows,
one of them with a NULL `filename`. -/
def legacyTable : Table :=
  ⟨⟨true, true⟩, true,
    [⟨1, "a", "b", "c", 10, tobytes [1], some "shot1.png"⟩,
     ⟨2, "d", "e", "f", 20, tobytes [2], none⟩], 3⟩

/-- A table still lacking the `filename` column (and without the legacy
uniqueness constraint), holding one row. -/
def noFilenameTable : Table :=
  ⟨⟨false, false⟩, true, [⟨1, "app", "ttl", "txt", 5, tobytes [0], none⟩], 2⟩

/-- A current-shape table holding one row whose blob has five bytes — not a
multiple of four. -/
def corruptTable : Table :=
  ⟨⟨false, true⟩, true, [⟨1, "app", "ttl", "txt", 5, [0, 0, 0, 0, 0], none⟩], 2⟩

/-! ### Codec lemmas -/

theorem f32ToBytes_recompose (x : Nat) (hx : x < 2 ^ 32) :
    x % 256 + 256 * (x / 256 % 256) + 65536 * (x / 65536 % 256) +
      16777216 * (x / 16777216 % 256) = x := by
  omega

theorem tobytes_cons (x : Nat) (xs : List Nat) :
    tobytes (x :: xs) = f32ToBytes x ++ tobytes xs := by
  simp [tobytes]

theorem frombuffer_tobytes (w : List Nat) (h : ∀ x ∈ w, x < 2 ^ 32) :
    frombuffer (tobytes w) = some w := by
  induction w with
  | nil => rfl
  | cons x xs ih =>
      have hx : x < 2 ^ 32 := h x (List.mem_cons_self x xs)
      have ihx : frombuffer (tobytes xs) = some xs :=
        ih (fun y hy => h y (List.mem_cons_of_mem x hy))
      rw [tobytes_cons]
      have hsplit : f32ToBytes x ++ tobytes xs =
          x % 256 :: x / 256 % 256 :: x / 65536 % 256 ::
            x / 16777216 % 256 :: tobytes xs := by
        simp [f32ToBytes]
      rw [hsplit]
      simp only [frombuffer, ihx]
      rw [f32ToBytes_recompose x hx]
      rfl

theorem tobytes_length (w : List Nat) : (tobytes w).length = 4 * w.length := by
  induction w with
  | nil => rfl
  | cons x xs ih =>
      rw [tobytes_cons]
      simp only [List.length_append, List.length_cons, ih, f32ToBytes,
        List.length_cons, List.length_nil]
      omega

theorem frombuffer_none_of_mod (l : List Nat) (h : l.length % 4 ≠ 0) :
    frombuffer l = none := by
  induction l using frombuffer.induct with
  | case1 => simp at h
  | case2 b0 b1 b2 b3 rest ih =>
      have hr : rest.length % 4 ≠ 0 := by
        simp only [List.length_cons] at h
        omega
      simp [frombuffer, ih hr]
  | case3 l h1 h2 => simp [frombuffer]

theorem frombuffer_some_of_mod (l : List Nat) (h : l.length % 4 = 0) :
    ∃ v, frombuffer l = some v := by
  induction l using frombuffer.induct with
  | case1 => exact ⟨[], rfl⟩
  | case2 b0 b1 b2 b3 rest ih =>
      have hr : rest.length % 4 = 0 := by
        simp only [List.length_cons] at h
        omega
      rcases ih hr with ⟨v, hv⟩
      exact ⟨(b0 + 256 * b1 + 65536 * b2 + 16777216 * b3) :: v,
        by simp [frombuffer, hv]⟩
  | case3 l h1 h2 =>
      exfalso
      rcases l with _ | ⟨a, _ | ⟨b, _ | ⟨c, _ | ⟨d, rest⟩⟩⟩⟩
      · exact h1 rfl
      · simp at h
      · simp at h
      · simp at h
      · exact h2 a b c d rest rfl

theorem coerceVec_length {F : Type} (c : F → Option Nat) (v : List F)
    (w : List Nat) (h : coerceVec c v = some w) : w.length = v.length := by
  induction v generalizing w with
  | nil =>
      simp only [coerceVec, Option.some.injEq] at h
      subst h
      rfl
  | cons x xs ih =>
      simp only [coerceVec] at h
      rcases hc : c x with _ | y <;> rcases hr : coerceVec c xs with _ | ys <;>
        simp [hc, hr] at h
      simp [← h, List.length_cons, ih ys hr]

theorem coerceVec_mem {F : Type} (c : F → Option Nat) (v : List F)
    (w : List Nat) (h : coerceVec c v = some w) (y : Nat) (hy : y ∈ w) :
    ∃ x ∈ v, c x = some y := by
  induction v generalizing w with
  | nil =>
      simp only [coerceVec, Option.some.injEq] at h
      subst h
      simp at hy
  | cons x xs ih =>
      simp only [coerceVec] at h
      rcases hc : c x with _ | z <;> rcases hr : coerceVec c xs with _ | zs <;>
        simp [hc, hr] at h
      subst h
      rcases List.mem_cons.mp hy with hy | hy
      · exact ⟨x, List.mem_cons_self x xs, hy ▸ hc⟩
      · rcases ih zs hr hy with ⟨a, ha, hca⟩
        exact ⟨a, List.mem_cons_of_mem x ha, hca⟩

theorem coerceVec_id (w : List Nat) :
    coerceVec (fun x => some x) w = some w := by
  induction w with
  | nil => rfl
  | cons x xs ih => simp [coerceVec, ih]

/-! ### Sorting lemmas: `ORDER BY timestamp DESC` -/

/-- The descending-by-timestamp relation between rows. -/
def rowGE (a b : Row) : Prop := b.timestamp ≤ a.timestamp

theorem insertDesc_perm (r : Row) (l : List Row) :
    List.Perm (insertDesc r l) (r :: l) := by
  induction l with
  | nil => exact List.Perm.refl _
  | cons x xs ih =>
      simp only [insertDesc]
      split
      · exact (ih.cons x).trans (List.Perm.swap r x xs)
      · exact List.Perm.refl _

theorem sortRowsDesc_perm (l : List Row) : List.Perm (sortRowsDesc l) l := by
  induction l with
  | nil => exact List.Perm.refl _
  | cons r rs ih =>
      exact (insertDesc_perm r (sortRowsDesc rs)).trans (ih.cons r)

theorem insertDesc_sorted (r : Row) (l : List Row)
    (h : l.Pairwise rowGE) : (insertDesc r l).Pairwise rowGE := by
  induction l with
  | nil => simp [insertDesc, List.pairwise_cons]
  | cons x xs ih =>
      rcases List.pairwise_cons.mp h with ⟨hx, hxs⟩
      simp only [insertDesc]
      split
      · rename_i hle
        refine List.pairwise_cons.mpr ⟨?_, ih hxs⟩
        intro y hy
        rcases List.mem_cons.mp ((insertDesc_perm r xs).mem_iff.mp hy) with
          hy2 | hy2
        · subst hy2
          exact hle
        · exact hx y hy2
      · rename_i hgt
        refine List.pairwise_cons.mpr ⟨?_, h⟩
        intro y hy
        rcases List.mem_cons.mp hy with hy | hy
        · subst hy
          exact le_of_lt (lt_of_not_le hgt)
        · exact le_trans (hx y hy) (le_of_lt (lt_of_not_le hgt))

theorem sortRowsDesc_sorted (l : List Row) :
    (sortRowsDesc l).Pairwise rowGE := by
  induction l with
  | nil => exact List.Pairwise.nil
  | cons r rs ih => exact insertDesc_sorted r (sortRowsDesc rs) ih

/-! ### Decode-loop lemmas -/

theorem rowToEntry_timestamp (r : Row) (e : Entry)
    (h : rowToEntry r = .ok e) : e.timestamp = r.timestamp := by
  simp only [rowToEntry] at h
  rcases hb : frombuffer r.embedding with _ | v <;> simp [hb] at h
  simp [← h]

theorem decodeRows_mem (l : List Row) (es : List Entry)
    (h : decodeRows l = .ok es) (r : Row) (hr : r ∈ l) :
    ∃ e, rowToEntry r = .ok e ∧ e ∈ es := by
  induction l generalizing es with
  | nil => simp at hr
  | cons a rs ih =>
      simp only [decodeRows] at h
      rcases ha : rowToEntry a with _ | e <;>
        rcases hrs : decodeRows rs with _ | es0 <;> simp [ha, hrs] at h
      subst h
      rcases List.mem_cons.mp hr with hr | hr
      · exact ⟨e, hr ▸ ha, List.mem_cons_self e es0⟩
      · rcases ih es0 hrs hr with ⟨e2, he2, hmem⟩
        exact ⟨e2, he2, List.mem_cons_of_mem e hmem⟩

theorem decodeRows_timestamps (l : List Row) (es : List Entry)
    (h : decodeRows l = .ok es) :
    es.map Entry.timestamp = l.map Row.timestamp := by
  induction l generalizing es with
  | nil =>
      simp only [decodeRows] at h
      rcases h
      rfl
  | cons a rs ih =>
      simp only [decodeRows] at h
      rcases ha : rowToEntry a with _ | e <;>
        rcases hrs : decodeRows rs with _ | es0 <;> simp [ha, hrs] at h
      subst h
      simp [List.map_cons, ih es0 hrs, rowToEntry_timestamp a e ha]

theorem decodeRows_err (l : List Row) (r : Row) (hr : r ∈ l)
    (he : rowToEntry r = .error ()) : decodeRows l = .error () := by
  induction l with
  | nil => simp at hr
  | cons a rs ih =>
      rcases List.mem_cons.mp hr with hr | hr
      · subst hr
        simp [decodeRows, he]
      · simp [decodeRows, ih hr]

theorem decodeRows_ok_of_all (l : List Row)
    (h : ∀ r ∈ l, ∃ e, rowToEntry r = .ok e) :
    ∃ es, decodeRows l = .ok es := by
  induction l with
  | nil => exact ⟨[], rfl⟩
  | cons a rs ih =>
      rcases h a (List.mem_cons_self a rs) with ⟨e, he⟩
      rcases ih (fun r hr => h r (List.mem_cons_of_mem a hr)) with ⟨es, hes⟩
      exact ⟨e :: es, by simp [decodeRows, he, hes]⟩

/-! ### Store lemmas -/

theorem storeInsert_current (t : Table) (hcur : t.schema = currentSchema)
    (text : String) (ts : Int) (bytes : List Nat) (app title : String)
    (fn : Option String) :
    storeInsert false ⟨some t⟩ text ts bytes app title fn =
      (⟨some ⟨t.schema, t.hasIndex,
          t.rows ++ [⟨t.nextId, app, title, text, ts, bytes, fn⟩],
          t.nextId + 1⟩⟩, some t.nextId) := by
  simp [storeInsert, hcur, currentSchema]

theorem storeInsert_spec (fault : Bool) (s : DBState) (text : String)
    (ts : Int) (bytes : List Nat) (app title : String) (fn : Option String) :
    storeInsert fault s text ts bytes app title fn = (s, none) ∨
      ∃ t, s.table = some t ∧
        storeInsert fault s text ts bytes app title fn =
          (⟨some ⟨t.schema, t.hasIndex,
              t.rows ++ [⟨t.nextId, app, title, text, ts, bytes, fn⟩],
              t.nextId + 1⟩⟩, some t.nextId) := by
  by_cases hf : fault = true
  · left
    simp [storeInsert, hf]
  · rcases hs : s.table with _ | t
    · left
      simp [storeInsert, hf, hs]
    · by_cases hcol : t.schema.hasFilename = false
      · left
        simp [storeInsert, hf, hs, hcol]
      · by_cases hdup : t.schema.timestampUnique = true ∧
            ∃ r ∈ t.rows, r.timestamp = ts
        · left
          simp [storeInsert, hf, hs, hcol, hdup]
        · right
          exact ⟨t, rfl, by simp [storeInsert, hf, hs, hcol, hdup]⟩

/-! ### Claim theorems -/

/-- C1: decoding the stored embedding blob produced by the encoding step of
`insert_entry` (`astype(np.float32).tobytes()`, decoded by `np.frombuffer`
with dtype float32) yields exactly the float32-coercion of the input vector,
for vectors of any length (0, 1, N included). -/
theorem c1_encode_decode_roundtrip {F : Type} (c : F → Option Nat)
    (v : List F) (w : List Nat) (hw : coerceVec c v = some w)
    (hb : ∀ x ∈ w, x < 2 ^ 32) :
    encodeEmbedding c v = some (tobytes w) ∧
      frombuffer (tobytes w) = some w ∧ w.length = v.length := by
  refine ⟨?_, frombuffer_tobytes w hb, coerceVec_length c v w hw⟩
  simp [encodeEmbedding, hw]

/-- Witness for C1 at the three-element float32 vector
[1.0, 0.0, -1.0] (bit patterns 1065353216, 0, 3212836864). -/
theorem c1_encode_decode_roundtrip_witness :
    encodeEmbedding (fun x : Nat => some x) [1065353216, 0, 3212836864] =
        some (tobytes [1065353216, 0, 3212836864]) ∧
      frombuffer (tobytes [1065353216, 0, 3212836864]) =
        some [1065353216, 0, 3212836864] ∧
      ([1065353216, 0, 3212836864] : List Nat).length =
        ([1065353216, 0, 3212836864] : List Nat).length :=
  c1_encode_decode_roundtrip (fun x : Nat => some x)
    [1065353216, 0, 3212836864] [1065353216, 0, 3212836864]
    (by decide) (by decide)

/-- C6: when the underlying store errors during the insert (injected fault),
`insert_entry` returns null (`none`) instead of raising (`Except.ok`, not
`Except.error`), and the state — in particular every previously committed
row — is unchanged. -/
theorem c6_insert_fault_returns_null {F : Type} (c : F → Option Nat)
    (s : DBState) (text : String) (ts : Int) (v : List F)
    (app title : String) (fn : Option String) (bytes : List Nat)
    (henc : encodeEmbedding c v = some bytes) :
    insert_entry c true s text ts v app title fn = .ok (s, none) := by
  simp [insert_entry, henc, storeInsert]

/-- Witness for C6: a faulted insert into the fresh store returns null and
leaves the store as it was. -/
theorem c6_insert_fault_returns_null_witness :
    insert_entry (fun x : Nat => some x) true freshState "txt" 7 [0]
        "app" "ttl" none = .ok (freshState, none) :=
  c6_insert_fault_returns_null (fun x : Nat => some x) freshState "txt" 7 [0]
    "app" "ttl" none (tobytes [0]) (by decide)

/-- C10: the encoding step runs before the guarded region, so a failing
float32 coercion makes `insert_entry` raise to its caller (`Except.error`)
instead of returning null. -/
theorem c10_encode_failure_propagates {F : Type} (c : F → Option Nat)
    (fault : Bool) (s : DBState) (text : String) (ts : Int) (v : List F)
    (app title : String) (fn : Option String)
    (henc : encodeEmbedding c v = none) :
    insert_entry c fault s text ts v app title fn = .error () := by
  simp [insert_entry, henc]

/-- Witness for C10: a coercion that fails on its single element makes
`insert_entry` raise. -/
theorem c10_encode_failure_propagates_witness :
    insert_entry (fun _ : Nat => (none : Option Nat)) false freshState
        "txt" 7 [0] "app" "ttl" none = .error () :=
  c10_encode_failure_propagates (fun _ : Nat => (none : Option Nat)) false
    freshState "txt" 7 [0] "app" "ttl" none (by decide)

/-- C7: the blob stored by a successful `insert_entry` has byte length exactly
four times the vector's element count (hence a multiple of four), and the
all-blobs-aligned invariant is preserved by every insert. -/
theorem c7_blob_length {F : Type} (c : F → Option Nat) (v : List F)
    (bytes : List Nat) (henc : encodeEmbedding c v = some bytes) :
    bytes.length = 4 * v.length ∧ bytes.length % 4 = 0 ∧
      ∀ (fault : Bool) (s : DBState) (t : Table) (text : String) (ts : Int)
        (app title : String) (fn : Option String) (s2 : DBState)
        (ret : Option Nat) (t2 : Table),
        s.table = some t → (∀ r ∈ t.rows, r.embedding.length % 4 = 0) →
        insert_entry c fault s text ts v app title fn = .ok (s2, ret) →
        s2.table = some t2 → ∀ r ∈ t2.rows, r.embedding.length % 4 = 0 := by
  have hlen : bytes.length = 4 * v.length := by
    simp only [encodeEmbedding] at henc
    rcases hcv : coerceVec c v with _ | w <;> simp [hcv] at henc
    rw [← henc, tobytes_length, coerceVec_length c v w hcv]
  refine ⟨hlen, by omega, ?_⟩
  intro fault s t text ts app title fn s2 ret t2 hs hwf hins ht2 r hr
  simp only [insert_entry, henc] at hins
  have hstore : storeInsert fault s text ts bytes app title fn = (s2, ret) := by
    exact Except.ok.inj hins
  rcases storeInsert_spec fault s text ts bytes app title fn with
    hsp | ⟨t0, ht0, hsp⟩
  · rw [hsp] at hstore
    injection hstore with h1 h2
    subst h1
    rw [hs] at ht2
    injection ht2 with h3
    subst h3
    exact hwf r hr
  · rw [hsp] at hstore
    rw [hs] at ht0
    injection ht0 with h3
    subst h3
    injection hstore with h1 h2
    subst h1
    injection ht2 with h4
    subst h4
    simp only [List.mem_append, List.mem_singleton] at hr
    rcases hr with hr | hr
    · exact hwf r hr
    · subst hr
      show bytes.length % 4 = 0
      omega

/-- Witness for C7 at a two-element vector inserted into the fresh store. -/
theorem c7_blob_length_witness :
    (tobytes [1, 2]).length = 4 * ([1, 2] : List Nat).length ∧
      (tobytes [1, 2]).length % 4 = 0 ∧
      ∀ (fault : Bool) (s : DBState) (t : Table) (text : String) (ts : Int)
        (app title : String) (fn : Option String) (s2 : DBState)
        (ret : Option Nat) (t2 : Table),
        s.table = some t → (∀ r ∈ t.rows, r.embedding.length % 4 = 0) →
        insert_entry (fun x : Nat => some x) fault s text ts [1, 2]
            app title fn = .ok (s2, ret) →
        s2.table = some t2 → ∀ r ∈ t2.rows, r.embedding.length % 4 = 0 :=
  c7_blob_length (fun x : Nat => some x) [1, 2] (tobytes [1, 2]) (by decide)

theorem map_migrateRow_true (l : List Row) : l.map (migrateRow true) = l := by
  induction l with
  | nil => rfl
  | cons a l ih => simp [migrateRow, ih]

/-- C2: on a table whose stored definition carries the legacy uniqueness
constraint on `timestamp`, `create_db` migrates: the resulting table has the
current shape (no uniqueness constraint), exactly as many rows as before, and
every original field value preserved (`filename` copied when the old table had
the column, NULL otherwise); on a table without the constraint no migration
occurs (rows and id sequence untouched). -/
theorem c2_migration (t u : Table) (hleg : t.schema.timestampUnique = true)
    (hnon : u.schema.timestampUnique = false) :
    ∃ t2, (create_db ⟨some t⟩).table = some t2 ∧
      t2.schema = currentSchema ∧
      t2.schema.timestampUnique = false ∧
      t2.rows.length = t.rows.length ∧
      t2.rows = t.rows.map (migrateRow t.schema.hasFilename) ∧
      (t.schema.hasFilename = true → t2.rows = t.rows) ∧
      (create_db ⟨some u⟩).table = some ⟨⟨false, true⟩, true, u.rows, u.nextId⟩ := by
  refine ⟨⟨currentSchema, true, t.rows.map (migrateRow t.schema.hasFilename),
      maxId (t.rows.map (migrateRow t.schema.hasFilename)) + 1⟩,
    ?_, rfl, rfl, by simp, rfl, ?_, ?_⟩
  · simp [create_db, hleg]
  · intro hf
    rw [hf]
    exact map_migrateRow_true t.rows
  · simp [create_db, hnon]

/-- Witness for C2: the two-row legacy fixture (one NULL `filename`) migrates
to the current shape with both rows intact; the current-shape demo table is
left alone. -/
theorem c2_migration_witness :
    ∃ t2, (create_db ⟨some legacyTable⟩).table = some t2 ∧
      t2.schema = currentSchema ∧
      t2.schema.timestampUnique = false ∧
      t2.rows.length = legacyTable.rows.length ∧
      t2.rows = legacyTable.rows.map (migrateRow legacyTable.schema.hasFilename) ∧
      (legacyTable.schema.hasFilename = true → t2.rows = legacyTable.rows) ∧
      (create_db ⟨some demoTable⟩).table =
        some ⟨⟨false, true⟩, true, demoTable.rows, demoTable.nextId⟩ :=
  c2_migration legacyTable demoTable (by decide) (by decide)

/-- C5: `create_db` is idempotent — on an already-current table it changes
nothing, on a fresh store it creates the current shape, and a second call
always yields exactly the state of the first. -/
theorem c5_create_db_idempotent (s : DBState) (t : Table)
    (ht : s.table = some t) (hcur : t.schema = currentSchema)
    (hidx : t.hasIndex = true) :
    create_db s = s ∧
      (create_db ⟨none⟩).table = some ⟨currentSchema, true, [], 1⟩ ∧
      ∀ s0 : DBState, create_db (create_db s0) = create_db s0 := by
  refine ⟨?_, rfl, ?_⟩
  · rcases s with ⟨tbl⟩
    simp only [] at ht
    rcases t with ⟨sch, idx, rows, nid⟩
    simp only [] at hcur hidx
    subst hcur
    subst hidx
    subst ht
    simp [create_db, currentSchema]
  · intro s0
    rcases s0 with ⟨_ | u⟩
    · simp [create_db, currentSchema]
    · by_cases hu : u.schema.timestampUnique = true
      · simp [create_db, hu, currentSchema]
      · simp [create_db, hu, currentSchema]

/-- Witness for C5 at the demo current-shape table. -/
theorem c5_create_db_idempotent_witness :
    create_db ⟨some demoTable⟩ = ⟨some demoTable⟩ ∧
      (create_db ⟨none⟩).table = some ⟨currentSchema, true, [], 1⟩ ∧
      ∀ s0 : DBState, create_db (create_db s0) = create_db s0 :=
  c5_create_db_idempotent ⟨some demoTable⟩ demoTable rfl (by decide) (by decide)

/-- C3: `get_timestamps` returns every stored timestamp, sorted descending;
`get_all_entries` lists its entries in that same descending-by-timestamp
order; and after inserting entries with timestamps 100, 300, 200 the
timestamps come back as [300, 200, 100]. -/
theorem c3_descending_order (s : DBState) (t : Table) (hs : s.table = some t) :
    List.Pairwise (fun a b : Int => b ≤ a) (get_timestamps false s) ∧
      List.Perm (get_timestamps false s) (t.rows.map Row.timestamp) ∧
      (t.schema.hasFilename = true →
        ∀ es, get_all_entries false s = .ok es →
          es.map Entry.timestamp = get_timestamps false s) ∧
      get_timestamps false scenarioState = [300, 200, 100] := by
  have hgts : get_timestamps false s = (sortRowsDesc t.rows).map Row.timestamp := by
    simp [get_timestamps, hs]
  refine ⟨?_, ?_, ?_, by decide⟩
  · rw [hgts]
    exact (sortRowsDesc_sorted t.rows).map Row.timestamp (fun a b hab => hab)
  · rw [hgts]
    exact (sortRowsDesc_perm t.rows).map Row.timestamp
  · intro hf es hes
    rw [hgts]
    have hge : get_all_entries false s = decodeRows (sortRowsDesc t.rows) := by
      simp [get_all_entries, hs, hf]
    rw [hge] at hes
    exact decodeRows_timestamps _ es hes

/-- Witness for C3 at the three-row demo table with timestamps 100, 300, 200. -/
theorem c3_descending_order_witness :
    List.Pairwise (fun a b : Int => b ≤ a)
        (get_timestamps false ⟨some demoTable⟩) ∧
      List.Perm (get_timestamps false ⟨some demoTable⟩)
        (demoTable.rows.map Row.timestamp) ∧
      (demoTable.schema.hasFilename = true →
        ∀ es, get_all_entries false ⟨some demoTable⟩ = .ok es →
          es.map Entry.timestamp = get_timestamps false ⟨some demoTable⟩) ∧
      get_timestamps false scenarioState = [300, 200, 100] :=
  c3_descending_order ⟨some demoTable⟩ demoTable rfl

/-- C4: against a current-shape table (with any well-formed committed rows),
two `insert_entry` calls carrying the identical timestamp both succeed — each
returns a non-null id — and both entries are subsequently retrievable via
`get_all_entries`; `insert_entry` never deduplicates by timestamp. -/
theorem c4_duplicate_timestamp_inserts (t : Table)
    (hcur : t.schema = currentSchema)
    (hwf : ∀ r ∈ t.rows, r.embedding.length % 4 = 0)
    (text1 text2 app1 app2 title1 title2 : String) (ts : Int)
    (w1 w2 : List Nat) (fn1 fn2 : Option String) :
    ∃ s1 s2 es,
      insert_entry (fun x : Nat => some x) false ⟨some t⟩ text1 ts w1
          app1 title1 fn1 = .ok (s1, some t.nextId) ∧
      insert_entry (fun x : Nat => some x) false s1 text2 ts w2
          app2 title2 fn2 = .ok (s2, some (t.nextId + 1)) ∧
      get_all_entries false s2 = .ok es ∧
      (∃ e ∈ es, e.id = t.nextId ∧ e.timestamp = ts ∧ e.text = text1 ∧
        e.app = app1 ∧ e.title = title1 ∧ e.filename = fn1) ∧
      (∃ e ∈ es, e.id = t.nextId + 1 ∧ e.timestamp = ts ∧ e.text = text2 ∧
        e.app = app2 ∧ e.title = title2 ∧ e.filename = fn2) := by
  have henc1 : encodeEmbedding (fun x : Nat => some x) w1 = some (tobytes w1) := by
    simp [encodeEmbedding, coerceVec_id]
  have henc2 : encodeEmbedding (fun x : Nat => some x) w2 = some (tobytes w2) := by
    simp [encodeEmbedding, coerceVec_id]
  set row1 : Row := ⟨t.nextId, app1, title1, text1, ts, tobytes w1, fn1⟩ with hrow1
  set row2 : Row := ⟨t.nextId + 1, app2, title2, text2, ts, tobytes w2, fn2⟩ with hrow2
  set t1 : Table := ⟨t.schema, t.hasIndex, t.rows ++ [row1], t.nextId + 1⟩ with ht1
  set t2 : Table := ⟨t1.schema, t1.hasIndex, t1.rows ++ [row2], t1.nextId + 1⟩ with ht2
  have hins1 : insert_entry (fun x : Nat => some x) false ⟨some t⟩ text1 ts w1
      app1 title1 fn1 = .ok (⟨some t1⟩, some t.nextId) := by
    simp only [insert_entry, henc1]
    rw [storeInsert_current t hcur]
  have hins2 : insert_entry (fun x : Nat => some x) false ⟨some t1⟩ text2 ts w2
      app2 title2 fn2 = .ok (⟨some t2⟩, some (t.nextId + 1)) := by
    simp only [insert_entry, henc2]
    rw [storeInsert_current t1 hcur]
  have hwf2 : ∀ r ∈ t2.rows, r.embedding.length % 4 = 0 := by
    intro r hr
    rw [ht2, ht1] at hr
    simp only [List.append_assoc, List.mem_append, List.mem_singleton] at hr
    rcases hr with hr | hr | hr
    · exact hwf r hr
    · subst hr
      show (tobytes w1).length % 4 = 0
      rw [tobytes_length]
      omega
    · subst hr
      show (tobytes w2).length % 4 = 0
      rw [tobytes_length]
      omega
  have hall : ∀ r ∈ sortRowsDesc t2.rows, ∃ e, rowToEntry r = .ok e := by
    intro r hr
    have hrmem := (sortRowsDesc_perm t2.rows).mem_iff.mp hr
    rcases frombuffer_some_of_mod r.embedding (hwf2 r hrmem) with ⟨v, hv⟩
    exact ⟨⟨r.id, r.app, r.title, r.text, r.timestamp, v, r.filename⟩,
      by simp [rowToEntry, hv]⟩
  rcases decodeRows_ok_of_all _ hall with ⟨es, hes⟩
  have hget : get_all_entries false ⟨some t2⟩ = .ok es := by
    simp only [get_all_entries]
    rw [if_neg (by simp), if_neg (by simp [hcur, currentSchema])]
    exact hes
  have hmem1 : row1 ∈ sortRowsDesc t2.rows := by
    refine (sortRowsDesc_perm t2.rows).mem_iff.mpr ?_
    rw [ht2, ht1]
    simp
  have hmem2 : row2 ∈ sortRowsDesc t2.rows := by
    refine (sortRowsDesc_perm t2.rows).mem_iff.mpr ?_
    rw [ht2]
    simp
  rcases decodeRows_mem _ es hes row1 hmem1 with ⟨e1, he1, hmes1⟩
  rcases decodeRows_mem _ es hes row2 hmem2 with ⟨e2, he2, hmes2⟩
  rcases frombuffer_some_of_mod (tobytes w1)
      (by rw [tobytes_length]; omega) with ⟨v1, hv1⟩
  rcases frombuffer_some_of_mod (tobytes w2)
      (by rw [tobytes_length]; omega) with ⟨v2, hv2⟩
  have he1e : e1 = ⟨row1.id, row1.app, row1.title, row1.text, row1.timestamp,
      v1, row1.filename⟩ := by
    simp only [rowToEntry, hrow1] at he1
    rw [hv1] at he1
    exact (Except.ok.inj he1).symm
  have he2e : e2 = ⟨row2.id, row2.app, row2.title, row2.text, row2.timestamp,
      v2, row2.filename⟩ := by
    simp only [rowToEntry, hrow2] at he2
    rw [hv2] at he2
    exact (Except.ok.inj he2).symm
  refine ⟨⟨some t1⟩, ⟨some t2⟩, es, hins1, hins2, hget, ?_, ?_⟩
  · exact ⟨e1, hmes1, by rw [he1e], by rw [he1e], by rw [he1e], by rw [he1e],
      by rw [he1e], by rw [he1e]⟩
  · exact ⟨e2, hmes2, by rw [he2e], by rw [he2e], by rw [he2e], by rw [he2e],
      by rw [he2e], by rw [he2e]⟩

/-- Witness for C4: two same-timestamp inserts into the fresh store. -/
theorem c4_duplicate_timestamp_inserts_witness :
    ∃ s1 s2 es,
      insert_entry (fun x : Nat => some x) false
          ⟨some ⟨currentSchema, true, [], 1⟩⟩ "t1" 42 [1]
          "a1" "w1" (some "f1.png") = .ok (s1, some 1) ∧
      insert_entry (fun x : Nat => some x) false s1 "t2" 42 [2]
          "a2" "w2" none = .ok (s2, some (1 + 1)) ∧
      get_all_entries false s2 = .ok es ∧
      (∃ e ∈ es, e.id = 1 ∧ e.timestamp = 42 ∧ e.text = "t1" ∧
        e.app = "a1" ∧ e.title = "w1" ∧ e.filename = some "f1.png") ∧
      (∃ e ∈ es, e.id = 1 + 1 ∧ e.timestamp = 42 ∧ e.text = "t2" ∧
        e.app = "a2" ∧ e.title = "w2" ∧ e.filename = none) :=
  c4_duplicate_timestamp_inserts ⟨currentSchema, true, [], 1⟩ rfl
    (by decide) "t1" "t2" "a1" "a2" "w1" "w2" 42 [1] [2] (some "f1.png") none

/-- C9: a stored row whose embedding blob length is not a multiple of four
makes `get_all_entries` raise to its caller (the `ValueError` from
`np.frombuffer` is not a `sqlite3.Error` and is not caught) rather than
return an empty list, a truncated vector, or skip the row. -/
theorem c9_bad_blob_raises (s : DBState) (t : Table) (hs : s.table = some t)
    (hf : t.schema.hasFilename = true) (r : Row) (hr : r ∈ t.rows)
    (hbad : r.embedding.length % 4 ≠ 0) :
    get_all_entries false s = .error () := by
  have hmem : r ∈ sortRowsDesc t.rows :=
    (sortRowsDesc_perm t.rows).mem_iff.mpr hr
  have herr : rowToEntry r = .error () := by
    simp [rowToEntry, frombuffer_none_of_mod r.embedding hbad]
  simp only [get_all_entries, hs]
  rw [if_neg (by simp), if_neg (by simp [hf])]
  exact decodeRows_err _ r hmem herr

/-- Witness for C9 at the one-row table whose blob holds five bytes. -/
theorem c9_bad_blob_raises_witness :
    get_all_entries false ⟨some corruptTable⟩ = .error () :=
  c9_bad_blob_raises ⟨some corruptTable⟩ corruptTable rfl (by decide)
    ⟨1, "app", "ttl", "txt", 5, [0, 0, 0, 0, 0], none⟩ (by decide) (by decide)

/-- C8 counterexample: a one-row table lacking the `filename` column.  The
claim says `get_all_entries` returns the row with a null filename; in fact the
SELECT names the `filename` column, the resulting `sqlite3.OperationalError`
is caught, and the call returns the empty list — the row is not returned at
all. -/
theorem c8_counterexample :
    noFilenameTable.schema.hasFilename = false ∧
      noFilenameTable.rows.length = 1 ∧
      get_all_entries false ⟨some noFilenameTable⟩ = .ok [] := by
  refine ⟨rfl, rfl, ?_⟩
  rfl

/-- C8 (amended): an entry whose stored `filename` is NULL is returned with
`filename` reported as absent (`none`), never as the empty string; but when
the `filename` column is missing entirely the SELECT fails, the error is
caught, and `get_all_entries` returns the empty list instead of the rows. -/
theorem c8_null_filename_reported (t : Table)
    (hf : t.schema.hasFilename = true) (es : List Entry)
    (h : get_all_entries false ⟨some t⟩ = .ok es)
    (r : Row) (hr : r ∈ t.rows) (hrf : r.filename = none) :
    (∃ e ∈ es, e.id = r.id ∧ e.timestamp = r.timestamp ∧ e.filename = none) ∧
      ∀ u : Table, u.schema.hasFilename = false →
        get_all_entries false ⟨some u⟩ = .ok [] := by
  constructor
  · have hge : get_all_entries false ⟨some t⟩ = decodeRows (sortRowsDesc t.rows) := by
      simp only [get_all_entries]
      rw [if_neg (by simp), if_neg (by simp [hf])]
    rw [hge] at h
    have hmem : r ∈ sortRowsDesc t.rows :=
      (sortRowsDesc_perm t.rows).mem_iff.mpr hr
    rcases decodeRows_mem _ es h r hmem with ⟨e, he, hees⟩
    rcases hv : frombuffer r.embedding with _ | v
    · simp [rowToEntry, hv] at he
    · simp only [rowToEntry, hv] at he
      have hee : e = ⟨r.id, r.app, r.title, r.text, r.timestamp, v, r.filename⟩ :=
        (Except.ok.inj he).symm
      exact ⟨e, hees, by rw [hee], by rw [hee], by rw [hee]; exact hrf⟩
  · intro u hu
    simp only [get_all_entries]
    rw [if_neg (by simp), if_pos (by simp [hu])]

/-- Witness for C8 (amended) at the two-row migrated legacy fixture (its
second row has a NULL filename) and the column-less fixture. -/
theorem c8_null_filename_reported_witness :
    (∃ e ∈ [Entry.mk 2 "d" "e" "f" 20 [2] none, Entry.mk 1 "a" "b" "c" 10 [1]
        (some "shot1.png")], e.id = 2 ∧ e.timestamp = 20 ∧ e.filename = none) ∧
      ∀ u : Table, u.schema.hasFilename = false →
        get_all_entries false ⟨some u⟩ = .ok [] :=
  c8_null_filename_reported legacyTable rfl
    [Entry.mk 2 "d" "e" "f" 20 [2] none,
      Entry.mk 1 "a" "b" "c" 10 [1] (some "shot1.png")]
    rfl ⟨2, "d", "e", "f", 20, tobytes [2], none⟩ (by decide) rfl

end OpenRecall
